import Mathlib

/-
Verification of `texar/utils/rnn.py` (dynamic RNN unrolling).

The Python module has two functions:
  * `dynamic_rnn(cell, inputs, sequence_length=None, initial_state=None, time_major=False)`
  * `_dynamic_rnn_loop(cell, inputs, initial_state, sequence_length=None)`

Shallow embedding conventions used below:
  * A batched tensor along the batch axis is a `List`; `σ` is one example's state
    row, `υ` one example's output row, `δ` one example's depth row of one time
    slice, and `ι` a full-batch time slice.
  * Python exceptions are modelled with `Except PyErr`.
  * `torch` indexing `t[i]` is `List.get?` (out of range raises `IndexError`).
-/

namespace Texar

/-- Python exception classes that the embedded code can raise. -/
inductive PyErr where
  | typeError
  | valueError
  | indexError
  | runtimeError
  | attributeError
  deriving DecidableEq, Repr

/-- A rank-3 `torch` tensor: `dim0`, `dim1` are `shape[0]`, `shape[1]` (kept as
metadata exactly as `torch` keeps shapes, so they are meaningful even when some
axis has extent 0); `rows` holds the depth rows, indexed `rows[i][j]` for the
two leading axes. -/
structure Tensor3 (δ : Type) where
  dim0 : Nat
  dim1 : Nat
  rows : List (List δ)
  deriving DecidableEq, Repr

/-- The `sequence_length` argument after the `torch.tensor` coercion on line 102:
a tensor with a `shape` and (for the rank-1 case) its entries `vals`.  Python
guarantees `shape.prod = vals.length`; well-formed rank-1 vectors have
`shape = [vals.length]`. -/
structure PySeqLen where
  shape : List Nat
  vals : List Nat
  deriving DecidableEq, Repr

/-- The object passed as `cell`.  A conforming cell is callable as
`output, state = cell(inputs[i], state)` (single-tensor state variant, batched
over the batch axis) and has a `zero_state(batch_size)` method.  A
non-conforming object (the code never checks `isinstance(cell, RNNCell)`) has
neither; calling it raises `TypeError` and accessing `zero_state` raises
`AttributeError`. -/
inductive PyCell (ι σ υ : Type) where
  | conforming (call : ι → List σ → List υ × List σ) (zero_state : Nat → List σ)
  | nonConforming

variable {ι σ υ δ : Type}

/-- One invocation `cell(inputs[i], state)` (line 153).  Calling a
non-conforming (non-callable) object raises `TypeError` at that point. -/
def cellStep : PyCell ι σ υ → ι → List σ → Except PyErr (List υ × List σ)
  | .conforming call _, x, s => .ok (call x s)
  | .nonConforming, _, _ => .error .typeError

/-- The `for i in range(time_steps)` loop of `_dynamic_rnn_loop` (lines
152-159, single-tensor state): one `cell` invocation per time slice,
accumulating `all_outputs` and `all_state` (the state after each step), and
threading the running `state`. -/
def runSteps (cell : PyCell ι σ υ) :
    List ι → List σ → Except PyErr (List (List υ) × List (List σ) × List σ)
  | [], s => .ok ([], [], s)
  | x :: xs, s =>
    match cellStep cell x s with
    | .error e => .error e
    | .ok (o, s') =>
      match runSteps cell xs s' with
      | .error e => .error e
      | .ok (os, hist, sf) => .ok (o :: os, s' :: hist, sf)

/-- The per-step outputs the loop accumulates in `all_outputs`, for a
conforming cell, as a pure function. -/
def stepOutputs (f : ι → List σ → List υ × List σ) : List ι → List σ → List (List υ)
  | [], _ => []
  | x :: xs, s => (f x s).1 :: stepOutputs f xs (f x s).2

/-- The per-step state snapshots the loop accumulates in `all_state`, for a
conforming cell, as a pure function. -/
def stepHistory (f : ι → List σ → List υ × List σ) : List ι → List σ → List (List σ)
  | [], _ => []
  | x :: xs, s => (f x s).2 :: stepHistory f xs (f x s).2

/-- The state after consuming all the given time slices starting from `s`
(so `iterState f (inputs.take n) s` is the state immediately after step
`n - 1`). -/
def iterState (f : ι → List σ → List υ × List σ) : List ι → List σ → List σ
  | [], s => s
  | x :: xs, s => iterState f xs (f x s).2

/-- The arguments `(inputs[i], state)` passed to the cell, in loop order: one
entry per loop iteration of `_dynamic_rnn_loop`. -/
def cellTrace (f : ι → List σ → List υ × List σ) : List ι → List σ → List (ι × List σ)
  | [], _ => []
  | x :: xs, s => (x, s) :: cellTrace f xs (f x s).2

/-- Models `torch.stack(l, dim=0)` (lines 163, 187-190): in the list model,
stacking batch rows along a new leading axis is the list itself, but
`torch.stack` of an empty tensor list raises `RuntimeError`. -/
def torchStack (l : List α) : Except PyErr (List α) :=
  match l with
  | [] => .error .runtimeError
  | _ => .ok l

/-- Modelled from the spec: `mask_sequences` is imported from
`texar.utils.shapes`, which is not part of this repository snapshot.  Per the
spec it returns, for the given time-major output (`row` index = batch index,
`t` = time index), the entry unchanged when `t` is below that element's
sequence length and zero otherwise.  This helper masks one time row. -/
def maskRow (zero : υ) (t : Nat) : List υ → List Nat → List υ
  | [], _ => []
  | x :: xs, L :: Ls => (if t < L then x else zero) :: maskRow zero t xs Ls
  | _ :: xs, [] => zero :: maskRow zero t xs []

/-- Modelled from the spec: the time recursion of `mask_sequences`, masking the
rows for time indices `t, t+1, ...`. -/
def maskFrom (zero : υ) : Nat → List (List υ) → List Nat → List (List υ)
  | _, [], _ => []
  | t, row :: rows, seqLen => maskRow zero t row seqLen :: maskFrom zero (t + 1) rows seqLen

/-- Modelled from the spec: `mask_sequences(outputs, sequence_length,
time_major=True)` zeroes, for every batch element, all output positions at or
beyond that element's sequence length; shape is unchanged (lines 164-166). -/
def mask_sequences (zero : υ) (outputs : List (List υ)) (seqLen : List Nat) : List (List υ) :=
  maskFrom zero 0 outputs seqLen

/-- One iteration of the final-state selection loop of `_dynamic_rnn_loop`
(lines 172-184, single-tensor state): `all_state[time_idx - 1][batch_idx]`
when `time_idx > 0`, otherwise `initial_state[batch_idx]`; an out-of-range
index raises `IndexError`. -/
def selectFinalEntry (allState : List (List σ)) (initialState : List σ)
    (batchIdx timeIdx : Nat) : Except PyErr σ :=
  if 0 < timeIdx then
    match (allState.get? (timeIdx - 1)).bind (fun row => row.get? batchIdx) with
    | some v => .ok v
    | none => .error .indexError
  else
    match initialState.get? batchIdx with
    | some v => .ok v
    | none => .error .indexError

/-- The whole `for batch_idx, time_idx in enumerate(sequence_length.tolist())`
loop (lines 172-184): `batchIdx` is the running `enumerate` counter. -/
def selectFinalStates (allState : List (List σ)) (initialState : List σ) :
    Nat → List Nat → Except PyErr (List σ)
  | _, [] => .ok []
  | batchIdx, t :: ts =>
    match selectFinalEntry allState initialState batchIdx t with
    | .error e => .error e
    | .ok v =>
      match selectFinalStates allState initialState (batchIdx + 1) ts with
      | .error e => .error e
      | .ok vs => .ok (v :: vs)

/-- `_dynamic_rnn_loop` (lines 136-192) for the `is_tuple == False` branch
(the initial state is a single batched tensor): run the time loop, stack and
mask the outputs, then select each batch element's final state from the
per-step state history by its own sequence length, and stack the result. -/
def dynamic_rnn_loop (cell : PyCell ι σ υ) (zero : υ) (inputs : List ι)
    (initial_state : List σ) (sequence_length : List Nat) :
    Except PyErr (List (List υ) × List σ) :=
  match runSteps cell inputs initial_state with
  | .error e => .error e
  | .ok (all_outputs, all_state, _) =>
    match torchStack all_outputs with
    | .error e => .error e
    | .ok stacked =>
      let final_outputs := mask_sequences zero stacked sequence_length
      match selectFinalStates all_state initial_state 0 sequence_length with
      | .error e => .error e
      | .ok selected =>
        match torchStack selected with
        | .error e => .error e
        | .ok final_state => .ok (final_outputs, final_state)

/-- The `sequence_length` handling of `dynamic_rnn` (lines 100-114): a supplied
vector is coerced to an integer tensor and rejected with `ValueError` unless it
is rank 1 with length `batch_size`; an absent one is synthesized as
`[time_steps] * batch_size`. -/
def validateSequenceLength (sequence_length : Option PySeqLen)
    (batch_size time_steps : Nat) : Except PyErr (List Nat) :=
  match sequence_length with
  | some s =>
    if s.shape.length ≠ 1 then .error .valueError
    else if s.shape ≠ [batch_size] then .error .valueError
    else .ok s.vals
  | none => .ok (List.replicate batch_size time_steps)

/-- `inputs.permute(1, 0, 2)` applied to a rank-3 tensor (lines 93-95 and
129-131): swap the two leading axes.  (`Tensor3` is rank 3 by construction;
`dynamicRnnInputShape` below tracks the rank check `torch` performs.) -/
def permute102 (t : Tensor3 δ) : Tensor3 δ :=
  ⟨t.dim1, t.dim0, t.rows.transpose⟩

/-- `dynamic_rnn` (lines 21-133, single-tensor state variant): transpose
batch-major input to the internal time-major layout, read `time_steps` and
`batch_size` from the two leading axes, validate or synthesize
`sequence_length`, materialize the initial state (`cell.zero_state` when
absent — an `AttributeError` for an object without that method), run
`_dynamic_rnn_loop`, and transpose outputs back for batch-major callers. -/
def dynamic_rnn (cell : PyCell (List δ) σ υ) (zero : υ) (inputs : Tensor3 δ)
    (sequence_length : Option PySeqLen) (initial_state : Option (List σ))
    (time_major : Bool) : Except PyErr (List (List υ) × List σ) :=
  let inputsTM := if time_major then inputs else permute102 inputs
  let time_steps := inputsTM.dim0
  let batch_size := inputsTM.dim1
  match validateSequenceLength sequence_length batch_size time_steps with
  | .error e => .error e
  | .ok seq =>
    match (match initial_state with
           | some s => (.ok s : Except PyErr (List σ))
           | none => match cell with
             | .conforming _ zero_state => .ok (zero_state batch_size)
             | .nonConforming => .error .attributeError) with
    | .error e => .error e
    | .ok state =>
      match dynamic_rnn_loop cell zero inputsTM.rows state seq with
      | .error e => .error e
      | .ok (outputs, final_state) =>
        .ok ((if time_major then outputs else outputs.transpose), final_state)

/-- `torch.Tensor.permute` at the shape level: the permutation must name every
axis of the tensor, so `permute(1, 0, 2)` raises `RuntimeError` unless the
tensor has exactly three axes. -/
def torchPermuteShape (shape : List Nat) (perm : List Nat) : Except PyErr (List Nat) :=
  if perm.length = shape.length then .ok (perm.map (fun i => shape.getD i 0))
  else .error .runtimeError

/-- The input normalization of `dynamic_rnn` at the shape level: batch-major
callers' tensors go through `inputs.permute(1, 0, 2)` (lines 93-95), time-major
tensors are used as is. -/
def dynamicRnnInputShape (shape : List Nat) (time_major : Bool) : Except PyErr (List Nat) :=
  if time_major then .ok shape else torchPermuteShape shape [1, 0, 2]

/-- The `for i in range(time_steps)` loop for the `is_tuple == True` branch
(lines 147-159): the state is a Python tuple of batched tensors, modelled as a
list of its components.  The accumulator `all_state` is the hard-coded PAIR
`([], [])`; each iteration appends `state[0]` and `state[1]`, raising
`IndexError` when the tuple has fewer than two components and silently
dropping any further components. -/
def runStepsTup (f : ι → List (List σ) → List υ × List (List σ)) :
    List ι → List (List σ) →
    Except PyErr (List (List υ) × List (List σ) × List (List σ))
  | [], _ => .ok ([], [], [])
  | x :: xs, s =>
    match (f x s).2.get? 0, (f x s).2.get? 1 with
    | some c0, some c1 =>
      match runStepsTup f xs (f x s).2 with
      | .error e => .error e
      | .ok (os, h0, h1) => .ok ((f x s).1 :: os, c0 :: h0, c1 :: h1)
    | _, _ => .error .indexError

/-- The tuple state after consuming all the given time slices starting from
`s`, for the tuple-state variant. -/
def iterStateTup (f : ι → List (List σ) → List υ × List (List σ)) :
    List ι → List (List σ) → List (List σ)
  | [], s => s
  | x :: xs, s => iterStateTup f xs (f x s).2

/-- One iteration of the final-state selection loop in the `is_tuple == True`
branch (lines 172-182): component 0 and component 1 are selected separately
from the two history lists (or from `initial_state[0]`, `initial_state[1]`
when `time_idx == 0`). -/
def selectFinalEntryTup (h0 h1 : List (List σ)) (initial_state : List (List σ))
    (batchIdx timeIdx : Nat) : Except PyErr (σ × σ) :=
  if 0 < timeIdx then
    match (h0.get? (timeIdx - 1)).bind (fun row => row.get? batchIdx),
          (h1.get? (timeIdx - 1)).bind (fun row => row.get? batchIdx) with
    | some v0, some v1 => .ok (v0, v1)
    | _, _ => .error .indexError
  else
    match (initial_state.get? 0).bind (fun c => c.get? batchIdx),
          (initial_state.get? 1).bind (fun c => c.get? batchIdx) with
    | some v0, some v1 => .ok (v0, v1)
    | _, _ => .error .indexError

/-- The `enumerate(sequence_length.tolist())` selection loop for the tuple
branch. -/
def selectFinalStatesTup (h0 h1 : List (List σ)) (initial_state : List (List σ)) :
    Nat → List Nat → Except PyErr (List (σ × σ))
  | _, [] => .ok []
  | batchIdx, t :: ts =>
    match selectFinalEntryTup h0 h1 initial_state batchIdx t with
    | .error e => .error e
    | .ok v =>
      match selectFinalStatesTup h0 h1 initial_state (batchIdx + 1) ts with
      | .error e => .error e
      | .ok vs => .ok (v :: vs)

/-- `_dynamic_rnn_loop` for the `is_tuple == True` branch.  The Python function
returns the pair `(torch.stack(final_state[0]), torch.stack(final_state[1]))`;
the resulting tuple is represented as a list of its components so that its
arity is observable (it always has exactly two). -/
def dynamic_rnn_loopTup (f : ι → List (List σ) → List υ × List (List σ)) (zero : υ)
    (inputs : List ι) (initial_state : List (List σ)) (sequence_length : List Nat) :
    Except PyErr (List (List υ) × List (List σ)) :=
  match runStepsTup f inputs initial_state with
  | .error e => .error e
  | .ok (all_outputs, h0, h1) =>
    match torchStack all_outputs with
    | .error e => .error e
    | .ok stacked =>
      let final_outputs := mask_sequences zero stacked sequence_length
      match selectFinalStatesTup h0 h1 initial_state 0 sequence_length with
      | .error e => .error e
      | .ok selected =>
        match torchStack (selected.map Prod.fst), torchStack (selected.map Prod.snd) with
        | .ok fs0, .ok fs1 => .ok (final_outputs, [fs0, fs1])
        | .error e, _ => .error e
        | _, .error e => .error e

/-- Component `c` of a tuple state, at batch index `b`. -/
def compGet (st : List (List σ)) (c b : Nat) : Option σ :=
  (st.get? c).bind (fun comp => comp.get? b)

/-- For a conforming cell the loop never raises: it returns exactly the output
history, the state history, and the final running state. -/
theorem runSteps_conforming (f : ι → List σ → List υ × List σ) (z : Nat → List σ) :
    ∀ (inputs : List ι) (s : List σ),
      runSteps (PyCell.conforming f z) inputs s
        = .ok (stepOutputs f inputs s, stepHistory f inputs s, iterState f inputs s) := by
  intro inputs
  induction inputs with
  | nil => intro s; rfl
  | cons x xs ih =>
    intro s
    simp [runSteps, cellStep, stepOutputs, stepHistory, iterState, ih]

/-- One output is recorded per loop iteration. -/
theorem stepOutputs_length (f : ι → List σ → List υ × List σ) :
    ∀ (inputs : List ι) (s : List σ), (stepOutputs f inputs s).length = inputs.length := by
  intro inputs
  induction inputs with
  | nil => intro s; rfl
  | cons x xs ih => intro s; simp [stepOutputs, ih]

/-- One state snapshot is recorded per loop iteration. -/
theorem stepHistory_length (f : ι → List σ → List υ × List σ) :
    ∀ (inputs : List ι) (s : List σ), (stepHistory f inputs s).length = inputs.length := by
  intro inputs
  induction inputs with
  | nil => intro s; rfl
  | cons x xs ih => intro s; simp [stepHistory, ih]

/-- The state history at index `i` is the state immediately after consuming the
first `i + 1` time slices. -/
theorem stepHistory_get?_eq (f : ι → List σ → List υ × List σ) :
    ∀ (inputs : List ι) (s : List σ) (i : Nat), i < inputs.length →
      (stepHistory f inputs s).get? i = some (iterState f (inputs.take (i + 1)) s) := by
  intro inputs
  induction inputs with
  | nil => intro s i hi; simp at hi
  | cons x xs ih =>
    intro s i hi
    cases i with
    | zero => simp [stepHistory, iterState]
    | succ n =>
      have hn : n < xs.length := by simpa using hi
      simp only [stepHistory, List.get?_cons_succ, List.take_succ_cons, iterState]
      exact ih (f x s).2 n hn

/-- The loop passes the cell one argument pair per time slice. -/
theorem cellTrace_length (f : ι → List σ → List υ × List σ) :
    ∀ (inputs : List ι) (s : List σ), (cellTrace f inputs s).length = inputs.length := by
  intro inputs
  induction inputs with
  | nil => intro s; rfl
  | cons x xs ih => intro s; simp [cellTrace, ih]

/-- The `i`-th cell invocation receives the full-batch slice `inputs[i]` and
the state accumulated from the first `i` slices. -/
theorem cellTrace_get?_eq (f : ι → List σ → List υ × List σ) :
    ∀ (inputs : List ι) (s : List σ) (i : Nat) (hi : i < inputs.length),
      (cellTrace f inputs s).get? i
        = some (inputs.get ⟨i, hi⟩, iterState f (inputs.take i) s) := by
  intro inputs
  induction inputs with
  | nil => intro s i hi; simp at hi
  | cons x xs ih =>
    intro s i hi
    cases i with
    | zero => simp [cellTrace, iterState]
    | succ n =>
      have hn : n < xs.length := by simpa using hi
      simp only [cellTrace, List.get?_cons_succ, List.take_succ_cons, iterState,
        List.get_cons_succ]
      exact ih (f x s).2 n hn

/-- The only exception the final-state selection step can raise is
`IndexError`. -/
theorem selectFinalEntry_error_eq (hist : List (List σ)) (init : List σ)
    (b t : Nat) (e : PyErr) (h : selectFinalEntry hist init b t = .error e) :
    e = .indexError := by
  unfold selectFinalEntry at h
  split at h <;> split at h <;> simp_all

/-- When the selection loop succeeds, the value stacked at batch position `i`
is exactly what `selectFinalEntry` returned for that element (with the
`enumerate` counter starting at `k`). -/
theorem selectFinalStates_ok_get (hist : List (List σ)) (init : List σ) :
    ∀ (seq : List Nat) (k : Nat) (vs : List σ),
      selectFinalStates hist init k seq = .ok vs →
      ∀ (i : Nat) (hi : i < seq.length),
        ∃ v, vs.get? i = some v ∧
          selectFinalEntry hist init (k + i) (seq.get ⟨i, hi⟩) = .ok v := by
  intro seq
  induction seq with
  | nil => intro k vs h i hi; simp at hi
  | cons t ts ih =>
    intro k vs h i hi
    unfold selectFinalStates at h
    cases he : selectFinalEntry hist init k t with
    | error e => rw [he] at h; simp at h
    | ok v =>
      rw [he] at h
      cases hrec : selectFinalStates hist init (k + 1) ts with
      | error e => rw [hrec] at h; simp at h
      | ok vs' =>
        rw [hrec] at h
        simp at h
        subst h
        cases i with
        | zero => exact ⟨v, rfl, by simpa using he⟩
        | succ n =>
          have hn : n < ts.length := by simpa using hi
          obtain ⟨v', hv', hsel⟩ := ih (k + 1) vs' hrec n hn
          refine ⟨v', by simpa using hv', ?_⟩
          have : k + (n + 1) = k + 1 + n := by omega
          rw [this]
          simpa using hsel

/-- If some batch element's selection step raises `IndexError`, the whole
selection loop raises `IndexError`. -/
theorem selectFinalStates_error (hist : List (List σ)) (init : List σ) :
    ∀ (seq : List Nat) (k i : Nat) (hi : i < seq.length),
      selectFinalEntry hist init (k + i) (seq.get ⟨i, hi⟩) = .error .indexError →
      selectFinalStates hist init k seq = .error .indexError := by
  intro seq
  induction seq with
  | nil => intro k i hi; simp at hi
  | cons t ts ih =>
    intro k i hi hent
    unfold selectFinalStates
    cases i with
    | zero =>
      have hget : (t :: ts).get ⟨0, hi⟩ = t := rfl
      rw [hget, Nat.add_zero] at hent
      rw [hent]
    | succ n =>
      have hn : n < ts.length := by simpa using hi
      have hent' : selectFinalEntry hist init (k + 1 + n) (ts.get ⟨n, hn⟩)
          = .error .indexError := by
        have h1 : k + 1 + n = k + (n + 1) := by omega
        rw [h1]
        simpa using hent
      rw [ih (k + 1) n hn hent']
      cases he : selectFinalEntry hist init k t with
      | error e =>
        have he' := selectFinalEntry_error_eq hist init k t e he
        subst he'
        rfl
      | ok v => rfl

/-- Stacking succeeds exactly on nonempty lists and is then the identity in the
list model. -/
theorem torchStack_ok_eq {l l' : List α} (h : torchStack l = .ok l') : l' = l := by
  unfold torchStack at h
  split at h
  · simp at h
  · simpa using h.symm

/-- Core fact for the single-tensor state: when `_dynamic_rnn_loop` succeeds,
the final state of batch element `b` with sequence length `L` is the state
obtained by iterating the cell over exactly the first `L` time slices (the
initial state when `L = 0`). -/
theorem loop_final_state (f : ι → List σ → List υ × List σ) (z : Nat → List σ)
    (zero : υ) (inputs : List ι) (init : List σ) (seq : List Nat)
    (outs : List (List υ)) (fs : List σ)
    (hok : dynamic_rnn_loop (PyCell.conforming f z) zero inputs init seq = .ok (outs, fs))
    (b : Nat) (hb : b < seq.length) :
    fs.get? b = (iterState f (inputs.take (seq.get ⟨b, hb⟩)) init).get? b := by
  unfold dynamic_rnn_loop at hok
  split at hok
  · rename_i e heq
    rw [runSteps_conforming f z inputs init] at heq
    simp at heq
  · rename_i os hist sf heq
    rw [runSteps_conforming f z inputs init] at heq
    have heq' : stepOutputs f inputs init = os ∧ stepHistory f inputs init = hist ∧
        iterState f inputs init = sf := by simpa using heq
    obtain ⟨hos, hhist, hsf⟩ := heq'
    subst hos
    subst hhist
    split at hok
    · simp at hok
    · rename_i stacked heq2
      split at hok
      · simp at hok
      · rename_i selected heq3
        split at hok
        · simp at hok
        · rename_i fsv heq4
          have hfsv : fsv = selected := torchStack_ok_eq heq4
          have h5 : mask_sequences zero stacked seq = outs ∧ fsv = fs := by simpa using hok
          have hfs : fs = selected := h5.2.symm.trans hfsv
          obtain ⟨v, hv, hsel⟩ :=
            selectFinalStates_ok_get (stepHistory f inputs init) init seq 0 selected heq3 b hb
          rw [Nat.zero_add] at hsel
          unfold selectFinalEntry at hsel
          split at hsel
          · rename_i hpos
            split at hsel
            · rename_i v' heq5
              have hv' : v' = v := by simpa using hsel
              subst hv'
              obtain ⟨row, hrow, hrowb⟩ := Option.bind_eq_some.mp heq5
              have hlt : seq.get ⟨b, hb⟩ - 1 < inputs.length := by
                obtain ⟨hlen, _⟩ := List.get?_eq_some.mp hrow
                simpa [stepHistory_length] using hlen
              have hhist2 := stepHistory_get?_eq f inputs init (seq.get ⟨b, hb⟩ - 1) hlt
              rw [hrow] at hhist2
              have hrow2 : row = iterState f (inputs.take (seq.get ⟨b, hb⟩ - 1 + 1)) init := by
                simpa using hhist2
              have ht : seq.get ⟨b, hb⟩ - 1 + 1 = seq.get ⟨b, hb⟩ :=
                Nat.succ_pred_eq_of_pos hpos
              rw [ht] at hrow2
              rw [hfs, hv, ← hrow2, hrowb]
            · simp at hsel
          · rename_i hnpos
            split at hsel
            · rename_i v' heq5
              have hv' : v' = v := by simpa using hsel
              subst hv'
              have ht0 : seq.get ⟨b, hb⟩ = 0 := by omega
              rw [hfs, hv, ht0]
              simp only [List.take_zero, iterState]
              exact heq5.symm
            · simp at hsel

/-- When the tuple-branch loop succeeds, each history list has one entry per
time slice, and the entry at index `i` is the corresponding component of the
state immediately after consuming the first `i + 1` slices. -/
theorem runStepsTup_ok (f : ι → List (List σ) → List υ × List (List σ)) :
    ∀ (inputs : List ι) (s : List (List σ)) (os : List (List υ)) (h0 h1 : List (List σ)),
      runStepsTup f inputs s = .ok (os, h0, h1) →
      os.length = inputs.length ∧ h0.length = inputs.length ∧ h1.length = inputs.length ∧
      ∀ (i : Nat), i < inputs.length →
        h0.get? i = (iterStateTup f (inputs.take (i + 1)) s).get? 0 ∧
        h1.get? i = (iterStateTup f (inputs.take (i + 1)) s).get? 1 := by
  intro inputs
  induction inputs with
  | nil =>
    intro s os h0 h1 h
    have h' : [] = os ∧ [] = h0 ∧ [] = h1 := by simpa [runStepsTup] using h
    obtain ⟨ho, h0e, h1e⟩ := h'
    subst ho; subst h0e; subst h1e
    exact ⟨rfl, rfl, rfl, fun i hi => by simp at hi⟩
  | cons x xs ih =>
    intro s os h0 h1 h
    unfold runStepsTup at h
    split at h
    · rename_i c0 c1 hg0 hg1
      split at h
      · simp at h
      · rename_i os' h0' h1' hrec
        have h' : (f x s).1 :: os' = os ∧ c0 :: h0' = h0 ∧ c1 :: h1' = h1 := by
          simpa using h
        obtain ⟨ho, h0e, h1e⟩ := h'
        subst ho; subst h0e; subst h1e
        obtain ⟨lo, l0, l1, hget⟩ := ih (f x s).2 os' h0' h1' hrec
        refine ⟨by simp [lo], by simp [l0], by simp [l1], ?_⟩
        intro i hi
        cases i with
        | zero =>
          constructor
          · simpa [iterStateTup] using hg0.symm
          · simpa [iterStateTup] using hg1.symm
        | succ n =>
          have hn : n < xs.length := by simpa using hi
          have := hget n hn
          simpa [List.take_succ_cons, iterStateTup] using this
    · rename_i hno
      simp at h

/-- When the tuple-branch selection loop succeeds, the value at batch position
`i` is exactly what `selectFinalEntryTup` returned for that element. -/
theorem selectFinalStatesTup_ok_get (h0 h1 : List (List σ)) (init : List (List σ)) :
    ∀ (seq : List Nat) (k : Nat) (vs : List (σ × σ)),
      selectFinalStatesTup h0 h1 init k seq = .ok vs →
      ∀ (i : Nat) (hi : i < seq.length),
        ∃ v, vs.get? i = some v ∧
          selectFinalEntryTup h0 h1 init (k + i) (seq.get ⟨i, hi⟩) = .ok v := by
  intro seq
  induction seq with
  | nil => intro k vs h i hi; simp at hi
  | cons t ts ih =>
    intro k vs h i hi
    unfold selectFinalStatesTup at h
    cases he : selectFinalEntryTup h0 h1 init k t with
    | error e => rw [he] at h; simp at h
    | ok v =>
      rw [he] at h
      cases hrec : selectFinalStatesTup h0 h1 init (k + 1) ts with
      | error e => rw [hrec] at h; simp at h
      | ok vs' =>
        rw [hrec] at h
        simp at h
        subst h
        cases i with
        | zero => exact ⟨v, rfl, by simpa using he⟩
        | succ n =>
          have hn : n < ts.length := by simpa using hi
          obtain ⟨v', hv', hsel⟩ := ih (k + 1) vs' hrec n hn
          refine ⟨v', by simpa using hv', ?_⟩
          have hkn : k + (n + 1) = k + 1 + n := by omega
          rw [hkn]
          simpa using hsel

/-- Core fact for the tuple state: when the tuple branch of `_dynamic_rnn_loop`
succeeds, each of the two retained components of the final state of batch
element `b` with sequence length `L` agrees with the state obtained by
iterating the cell over exactly the first `L` time slices (the initial state
when `L = 0`). -/
theorem loopTup_final_state (f : ι → List (List σ) → List υ × List (List σ))
    (zero : υ) (inputs : List ι) (init : List (List σ)) (seq : List Nat)
    (outs : List (List υ)) (fs : List (List σ))
    (hok : dynamic_rnn_loopTup f zero inputs init seq = .ok (outs, fs))
    (b : Nat) (hb : b < seq.length) (c : Nat) (hc : c < 2) :
    compGet fs c b = compGet (iterStateTup f (inputs.take (seq.get ⟨b, hb⟩)) init) c b := by
  unfold dynamic_rnn_loopTup at hok
  split at hok
  · simp at hok
  · rename_i os h0 h1 heq
    split at hok
    · simp at hok
    · rename_i stacked heq2
      split at hok
      · simp at hok
      · rename_i selected heq3
        split at hok
        · rename_i fs0 fs1 heq4 heq5
          have h5 : mask_sequences zero stacked seq = outs ∧ [fs0, fs1] = fs := by
            simpa using hok
          have hfs : fs = [selected.map Prod.fst, selected.map Prod.snd] := by
            rw [← h5.2, torchStack_ok_eq heq4, torchStack_ok_eq heq5]
          obtain ⟨lo, l0, l1, hget⟩ := runStepsTup_ok f inputs init os h0 h1 heq
          obtain ⟨v, hv, hsel⟩ :=
            selectFinalStatesTup_ok_get h0 h1 init seq 0 selected heq3 b hb
          rw [Nat.zero_add] at hsel
          unfold selectFinalEntryTup at hsel
          split at hsel
          · rename_i hpos
            split at hsel
            · rename_i v0 v1 hbind0 hbind1
              have hv01 : v = (v0, v1) := by simpa using hsel.symm
              subst hv01
              have ht : seq.get ⟨b, hb⟩ - 1 + 1 = seq.get ⟨b, hb⟩ :=
                Nat.succ_pred_eq_of_pos hpos
              obtain ⟨row0, hrow0, hrow0b⟩ := Option.bind_eq_some.mp hbind0
              obtain ⟨row1, hrow1, hrow1b⟩ := Option.bind_eq_some.mp hbind1
              have hlt : seq.get ⟨b, hb⟩ - 1 < inputs.length := by
                obtain ⟨hlen, _⟩ := List.get?_eq_some.mp hrow0
                omega
              obtain ⟨hg0, hg1⟩ := hget (seq.get ⟨b, hb⟩ - 1) hlt
              rw [ht] at hg0 hg1
              obtain hc0 | hc1 : c = 0 ∨ c = 1 := by omega
              · subst hc0
                rw [hfs]
                simp only [compGet, List.get?_cons_zero, Option.some_bind,
                  List.get?_map, hv, Option.map_some, ← hg0, hrow0,
                  Option.some_bind]
                exact hrow0b.symm
              · subst hc1
                rw [hfs]
                simp only [compGet, List.get?_cons_succ, List.get?_cons_zero,
                  Option.some_bind, List.get?_map, hv, Option.map_some, ← hg1, hrow1,
                  Option.some_bind]
                exact hrow1b.symm
            · simp at hsel
          · rename_i hnpos
            split at hsel
            · rename_i v0 v1 hbind0 hbind1
              have hv01 : v = (v0, v1) := by simpa using hsel.symm
              subst hv01
              have ht0 : seq.get ⟨b, hb⟩ = 0 := by omega
              rw [hfs, ht0]
              simp only [List.take_zero, iterStateTup]
              obtain hc0 | hc1 : c = 0 ∨ c = 1 := by omega
              · subst hc0
                simp only [compGet, List.get?_cons_zero, Option.some_bind,
                  List.get?_map, hv, Option.map_some]
                exact hbind0.symm
              · subst hc1
                simp only [compGet, List.get?_cons_succ, List.get?_cons_zero,
                  Option.some_bind, List.get?_map, hv, Option.map_some]
                exact hbind1.symm
            · simp at hsel
        · simp at hok
        · simp at hok

/-- The tuple branch of `_dynamic_rnn_loop` always returns a final state of
tuple arity exactly 2, whatever the arity of the initial state and of the
states the cell produces. -/
theorem tuple_final_state_always_pair (f : ι → List (List σ) → List υ × List (List σ))
    (zero : υ) (inputs : List ι) (init : List (List σ)) (seq : List Nat)
    (outs : List (List υ)) (fs : List (List σ))
    (hok : dynamic_rnn_loopTup f zero inputs init seq = .ok (outs, fs)) :
    fs.length = 2 := by
  unfold dynamic_rnn_loopTup at hok
  split at hok
  · simp at hok
  · rename_i os h0 h1 heq
    split at hok
    · simp at hok
    · rename_i stacked heq2
      split at hok
      · simp at hok
      · rename_i selected heq3
        split at hok
        · rename_i fs0 fs1 heq4 heq5
          have h5 : mask_sequences zero stacked seq = outs ∧ [fs0, fs1] = fs := by
            simpa using hok
          rw [← h5.2]
          rfl
        · simp at hok
        · simp at hok

/-- C1: for every valid invocation, each batch element's returned final state
is, for sequence length `L > 0`, the state recorded in the step-state history
at step index `L - 1` — equivalently (by `stepHistory_get?_eq` and
`runStepsTup_ok`) the state reached by iterating the cell over exactly the
first `L` time slices — and for `L = 0` the element's initial state
(`inputs.take 0` leaves the initial state untouched).  Stated for both state
variants: single batched tensor and tuple state. -/
theorem final_state_selected_by_length :
    (∀ (ι σ υ : Type) (f : ι → List σ → List υ × List σ) (z : Nat → List σ) (zero : υ)
       (inputs : List ι) (init : List σ) (seq : List Nat) (outs : List (List υ))
       (fs : List σ),
       dynamic_rnn_loop (PyCell.conforming f z) zero inputs init seq = .ok (outs, fs) →
       ∀ (b : Nat) (hb : b < seq.length),
         fs.get? b = (iterState f (inputs.take (seq.get ⟨b, hb⟩)) init).get? b)
  ∧ (∀ (ι σ υ : Type) (f : ι → List (List σ) → List υ × List (List σ)) (zero : υ)
       (inputs : List ι) (init : List (List σ)) (seq : List Nat) (outs : List (List υ))
       (fs : List (List σ)),
       dynamic_rnn_loopTup f zero inputs init seq = .ok (outs, fs) →
       ∀ (b : Nat) (hb : b < seq.length) (c : Nat), c < 2 →
         compGet fs c b = compGet (iterStateTup f (inputs.take (seq.get ⟨b, hb⟩)) init) c b) :=
  ⟨fun _ _ _ f z zero inputs init seq outs fs hok b hb =>
     loop_final_state f z zero inputs init seq outs fs hok b hb,
   fun _ _ _ f zero inputs init seq outs fs hok b hb c hc =>
     loopTup_final_state f zero inputs init seq outs fs hok b hb c hc⟩

/-- Witness for C1: batch 2, time extent 2, sequence lengths `[2, 1]` — element
0 gets the state after step 1, element 1 the state after step 0; and a tuple
cell with lengths `[1]`. -/
theorem final_state_selected_by_length_witness :
    (dynamic_rnn_loop (PyCell.conforming
        (fun (x : Nat) (s : List Nat) => (s.map (fun v => v + x), s.map (fun v => v + x)))
        (fun b => List.replicate b 0)) 0 [10, 20] [1, 2] [2, 1]
      = .ok ([[11, 12], [31, 0]], [31, 12]))
  ∧ ([31, 12] : List Nat).get? 0
      = (iterState (fun (x : Nat) (s : List Nat) =>
          (s.map (fun v => v + x), s.map (fun v => v + x))) ([10, 20].take 2) [1, 2]).get? 0
  ∧ (dynamic_rnn_loopTup (fun (x : Nat) (s : List (List Nat)) =>
        ([x], s.map (List.map (fun v => v + x)))) 0 [5] [[1], [2]] [1]
      = .ok ([[5]], [[6], [7]]))
  ∧ compGet [[6], [7]] 0 0
      = compGet (iterStateTup (fun (x : Nat) (s : List (List Nat)) =>
          ([x], s.map (List.map (fun v => v + x)))) ([5].take 1) [[1], [2]]) 0 0 := by
  have h := final_state_selected_by_length
  refine ⟨rfl, ?_, rfl, ?_⟩
  · have h1 := h.1 Nat Nat Nat
      (fun (x : Nat) (s : List Nat) => (s.map (fun v => v + x), s.map (fun v => v + x)))
      (fun b => List.replicate b 0) 0 [10, 20] [1, 2] [2, 1] [[11, 12], [31, 0]] [31, 12]
      rfl 0 (by decide)
    simpa using h1
  · have h2 := h.2 Nat Nat Nat
      (fun (x : Nat) (s : List (List Nat)) => ([x], s.map (List.map (fun v => v + x))))
      0 [5] [[1], [2]] [1] [[5]] [[6], [7]] rfl 0 (by decide) 0 (by decide)
    simpa using h2

/-- C2 (code bug): `dynamic_rnn` never verifies that `cell` is an `RNNCell`,
although its docstring promises `TypeError` in that case.  First conjunct: a
non-conforming cell sails through input normalization and sequence-length
synthesis and only fails at `cell.zero_state` — with `AttributeError`, not
`TypeError`.  Second conjunct: with a malformed `sequence_length`, the
sequence-length `ValueError` fires even though the cell is non-conforming,
showing no cell type check precedes it. -/
theorem no_cell_type_check :
    dynamic_rnn (PyCell.nonConforming : PyCell (List Nat) Nat Nat) 0
        (⟨1, 1, [[0]]⟩ : Tensor3 Nat) none none true = .error .attributeError
  ∧ dynamic_rnn (PyCell.nonConforming : PyCell (List Nat) Nat Nat) 0
        (⟨1, 1, [[0]]⟩ : Tensor3 Nat) (some ⟨[1, 1], [1]⟩) none true
      = .error .valueError :=
  ⟨rfl, rfl⟩

/-- C3 (code bug): a batch-major input with zero time extent is not rejected
with `ValueError`; the code transposes it, synthesizes sequence lengths,
builds the zero state, runs the (empty) loop, and only then fails inside
`torch.stack` of the empty output list — a `RuntimeError`. -/
theorem empty_time_axis_runtime_error :
    dynamic_rnn (PyCell.conforming (fun (_ : List Nat) (s : List Nat) => (s, s))
        (fun b => List.replicate b 0)) 0 (⟨2, 0, [[], []]⟩ : Tensor3 Nat) none none false
      = .error .runtimeError :=
  rfl

/-- C6 counterexample: a cell whose state tuple has arity 3.  The loop
succeeds but returns a final state of arity 2 — the third component is
silently dropped, so the final state does not match the initial state's
structural variant. -/
theorem tuple_arity_three_not_preserved :
    dynamic_rnn_loopTup (fun (x : Nat) (s : List (List Nat)) => ([x], s)) 0
        [7] [[1], [2], [3]] [1] = .ok ([[7]], [[1], [2]])
  ∧ ([[1], [2]] : List (List Nat)).length ≠ ([[1], [2], [3]] : List (List Nat)).length :=
  ⟨rfl, by decide⟩

/-- Witness for the amended C6: a conforming pair-state cell, for which the
returned arity 2 does coincide with the initial arity. -/
theorem tuple_final_state_always_pair_witness :
    dynamic_rnn_loopTup (fun (x : Nat) (s : List (List Nat)) => ([x], s)) 0
        [4] [[9], [8]] [1] = .ok ([[4]], [[9], [8]])
  ∧ ([[9], [8]] : List (List Nat)).length = 2 :=
  ⟨rfl, tuple_final_state_always_pair (fun (x : Nat) (s : List (List Nat)) => ([x], s))
    0 [4] [[9], [8]] [1] [[4]] [[9], [8]] rfl⟩

/-- C9 (code bug): `inputs.permute(1, 0, 2)` demands a rank-3 tensor, so a
batch-major input with an extra feature axis (rank 4) raises `RuntimeError`
instead of being accepted; rank 3 goes through with the two leading axes
swapped. -/
theorem rank_mismatch_permute_error :
    dynamicRnnInputShape [2, 3, 4, 5] false = .error .runtimeError
  ∧ dynamicRnnInputShape [5, 7, 11] false = .ok [7, 5, 11] :=
  ⟨rfl, rfl⟩

/-- C4: a supplied `sequence_length` that is not rank 1, or whose length is
not the batch size, makes `dynamic_rnn` raise `ValueError`.  The statement is
universally quantified over the cell (including a non-conforming one, whose
`zero_state` access would raise `AttributeError` and whose invocation would
raise `TypeError`) and over the initial state, so the uniform `ValueError`
shows the check fires before the zero state is built and before the step
function is ever invoked. -/
theorem seq_len_shape_mismatch_value_error (cell : PyCell (List δ) σ υ) (zero : υ)
    (inputs : Tensor3 δ) (s : PySeqLen) (init : Option (List σ)) (tm : Bool)
    (h : s.shape.length ≠ 1 ∨ s.shape ≠ [if tm then inputs.dim1 else inputs.dim0]) :
    dynamic_rnn cell zero inputs (some s) init tm = .error .valueError := by
  have hv : validateSequenceLength (some s) (if tm then inputs.dim1 else inputs.dim0)
      (if tm then inputs.dim0 else inputs.dim1) = .error .valueError := by
    unfold validateSequenceLength
    rcases h with h1 | h2
    · simp [h1]
    · by_cases hl : s.shape.length = 1
      · simp [hl, h2]
      · simp [hl]
  cases tm with
  | false =>
    simp only [Bool.false_eq_true, if_false] at hv ⊢
    unfold dynamic_rnn
    simp only [Bool.false_eq_true, if_false, permute102] at hv ⊢
    rw [hv]
  | true =>
    unfold dynamic_rnn
    simp only [if_true] at hv ⊢
    rw [hv]

/-- Witness for C4: a rank-2 sequence-length tensor and a non-conforming
cell; the result is `ValueError`, with the step function invoked zero times. -/
theorem seq_len_shape_mismatch_value_error_witness :
    (([2, 2] : List Nat).length ≠ 1 ∨ ([2, 2] : List Nat) ≠ [2])
  ∧ dynamic_rnn (PyCell.nonConforming : PyCell (List Nat) Nat Nat) 0
      (⟨2, 2, [[1, 2], [3, 4]]⟩ : Tensor3 Nat) (some ⟨[2, 2], [1, 2, 3, 4]⟩) none false
      = .error .valueError :=
  ⟨by decide,
   seq_len_shape_mismatch_value_error (PyCell.nonConforming : PyCell (List Nat) Nat Nat) 0
     (⟨2, 2, [[1, 2], [3, 4]]⟩ : Tensor3 Nat) ⟨[2, 2], [1, 2, 3, 4]⟩ none false (by decide)⟩

/-- C5: omitting `sequence_length` behaves exactly like passing a rank-1
vector of length `batch_size` filled with the full time extent (the code
synthesizes `[time_steps] * batch_size` itself; a supplied well-formed vector
with those values validates and yields the same entries). -/
theorem omitted_seq_len_equals_full_length_vector (cell : PyCell (List δ) σ υ)
    (zero : υ) (inputs : Tensor3 δ) (init : Option (List σ)) (tm : Bool) :
    dynamic_rnn cell zero inputs none init tm
      = dynamic_rnn cell zero inputs
          (some ⟨[if tm then inputs.dim1 else inputs.dim0],
                 List.replicate (if tm then inputs.dim1 else inputs.dim0)
                   (if tm then inputs.dim0 else inputs.dim1)⟩) init tm := by
  have hv : ∀ b t : Nat, validateSequenceLength (some ⟨[b], List.replicate b t⟩) b t
      = validateSequenceLength none b t := by
    intro b t
    simp [validateSequenceLength]
  cases tm with
  | false =>
    unfold dynamic_rnn
    simp only [Bool.false_eq_true, if_false, permute102]
    rw [hv]
  | true =>
    unfold dynamic_rnn
    simp only [if_true]
    rw [hv]

/-- C7: unrolling a batch-major input, and unrolling its manual transpose in
time-major mode, produce the same final state, and outputs equal up to the
same batch/time transposition. -/
theorem batch_major_equals_transposed_time_major (cell : PyCell (List δ) σ υ)
    (zero : υ) (inputs : Tensor3 δ) (seq : Option PySeqLen) (init : Option (List σ)) :
    dynamic_rnn cell zero inputs seq init false
      = (dynamic_rnn cell zero (permute102 inputs) seq init true).map
          (fun r => (r.1.transpose, r.2)) := by
  unfold dynamic_rnn
  simp only [Bool.false_eq_true, if_false, if_true]
  cases hV : validateSequenceLength seq (permute102 inputs).dim1 (permute102 inputs).dim0 with
  | error e => rfl
  | ok sq =>
    cases init with
    | some st =>
      cases hL : dynamic_rnn_loop cell zero (permute102 inputs).rows st sq with
      | error e => simp [hL, Except.map]
      | ok r =>
        obtain ⟨o, fs⟩ := r
        simp [hL, Except.map]
    | none =>
      cases cell with
      | conforming f z =>
        cases hL : dynamic_rnn_loop (PyCell.conforming f z) zero (permute102 inputs).rows
            (z (permute102 inputs).dim1) sq with
        | error e => simp [hL, Except.map]
        | ok r =>
          obtain ⟨o, fs⟩ := r
          simp [hL, Except.map]
      | nonConforming => rfl

/-- C8: the loop of `_dynamic_rnn_loop` invokes the cell exactly once per time
index — the call trace has length `time_steps` and its `i`-th entry carries
the full-batch slice `inputs[i]` — and this phase (`runSteps`, which
`dynamic_rnn_loop` runs before `sequence_length` is ever consulted) is a
function of the inputs and initial state only, never of the sequence-length
values. -/
theorem step_function_once_per_time_index (f : ι → List σ → List υ × List σ)
    (z : Nat → List σ) (inputs : List ι) (init : List σ) :
    (cellTrace f inputs init).length = inputs.length
  ∧ (∀ (i : Nat) (hi : i < inputs.length),
      (cellTrace f inputs init).get? i
        = some (inputs.get ⟨i, hi⟩, iterState f (inputs.take i) init))
  ∧ runSteps (PyCell.conforming f z) inputs init
      = .ok (stepOutputs f inputs init, stepHistory f inputs init, iterState f inputs init) :=
  ⟨cellTrace_length f inputs init,
   fun i hi => cellTrace_get?_eq f inputs init i hi,
   runSteps_conforming f z inputs init⟩

/-- Witness for C8: two time slices give a trace of exactly two calls, the
second on slice `inputs[1]` with the state accumulated from slice 0. -/
theorem step_function_once_per_time_index_witness :
    (cellTrace (fun (x : Nat) (s : List Nat) => (s.map (fun v => v + x), s.map (fun v => v + x)))
        [3, 4] [1]).length = 2
  ∧ (cellTrace (fun (x : Nat) (s : List Nat) => (s.map (fun v => v + x), s.map (fun v => v + x)))
        [3, 4] [1]).get? 1 = some (4, [4]) := by
  have h := step_function_once_per_time_index
    (fun (x : Nat) (s : List Nat) => (s.map (fun v => v + x), s.map (fun v => v + x)))
    (fun b => List.replicate b 0) [3, 4] [1]
  refine ⟨h.1, ?_⟩
  have h2 := h.2.1 1 (by decide)
  simpa [iterState] using h2

/-- C10: an entry of `sequence_length` larger than the time extent passes
validation untouched (only rank and length are checked — first conjunct), the
loop then computes every one of the `time_steps` cell invocations (third
conjunct), and the failure surfaces only afterwards, when final-state
selection indexes the step-state history out of range and raises `IndexError`
(second conjunct). -/
theorem overlong_seq_len_fails_after_all_steps (f : ι → List σ → List υ × List σ)
    (z : Nat → List σ) (zero : υ) (inputs : List ι) (init : List σ) (seq : List Nat)
    (b : Nat) (hb : b < seq.length) (hgt : inputs.length < seq.get ⟨b, hb⟩)
    (hne : inputs ≠ []) :
    validateSequenceLength (some ⟨[seq.length], seq⟩) seq.length inputs.length = .ok seq
  ∧ dynamic_rnn_loop (PyCell.conforming f z) zero inputs init seq = .error .indexError
  ∧ (cellTrace f inputs init).length = inputs.length := by
  refine ⟨by simp [validateSequenceLength], ?_, cellTrace_length f inputs init⟩
  have hsel : selectFinalStates (stepHistory f inputs init) init 0 seq
      = .error .indexError := by
    apply selectFinalStates_error (stepHistory f inputs init) init seq 0 b hb
    unfold selectFinalEntry
    rw [if_pos (by omega : 0 < seq.get ⟨b, hb⟩)]
    rw [List.get?_eq_none.mpr (by rw [stepHistory_length]; omega)]
    rfl
  unfold dynamic_rnn_loop
  rw [runSteps_conforming f z inputs init]
  cases hso : stepOutputs f inputs init with
  | nil =>
    exfalso
    have hlen := stepOutputs_length f inputs init
    rw [hso] at hlen
    exact hne (List.eq_nil_of_length_eq_zero hlen.symm)
  | cons y ys =>
    dsimp only [torchStack]
    rw [hsel]

/-- Witness for C10: time extent 1 with requested length 5 — validation lets
it through, and the loop fails with `IndexError` after its single step. -/
theorem overlong_seq_len_fails_after_all_steps_witness :
    (0 : Nat) < ([5] : List Nat).length
  ∧ ([1] : List Nat).length < ([5] : List Nat).get ⟨0, by decide⟩
  ∧ ([1] : List Nat) ≠ []
  ∧ validateSequenceLength (some ⟨[1], [5]⟩) 1 1 = .ok [5]
  ∧ dynamic_rnn_loop (PyCell.conforming (fun (_ : Nat) (s : List Nat) => (s, s))
      (fun b => List.replicate b 0)) 0 [1] [0] [5] = .error .indexError
  ∧ (cellTrace (fun (_ : Nat) (s : List Nat) => (s, s)) [1] [0]).length = 1 := by
  have h := overlong_seq_len_fails_after_all_steps
    (fun (_ : Nat) (s : List Nat) => (s, s)) (fun b => List.replicate b 0)
    0 [1] [0] [5] 0 (by decide) (by decide) (by decide)
  exact ⟨by decide, by decide, by decide, h.1, h.2.1, h.2.2⟩

end Texar
